import Mathlib

/-!
Shallow embedding of the demo web application in src/app.py: a Flask app
with five routes (/, /template, /yaml, /fetch, /encrypt), each delegating
to one external library.  Handlers are embedded as pure Lean functions.
Each external library call (Jinja2 rendering, PyYAML loading, requests.get,
the Fernet primitives of the cryptography package) is an explicit oracle
parameter or a structural model, since the library code is not part of this
repository.  Flask semantics used throughout: a handler that returns a
string produces a 200-status response with that string as body; an
exception escaping a handler is surfaced by the framework as its generic
500-status error page.
-/

set_option autoImplicit false

namespace App

/-- HTTP response as produced by a handler that returns normally: Flask
wraps a returned string in a success response, so the status is 200. -/
structure Response where
  status : Nat
  body : String
deriving DecidableEq, Repr

/-- Outcome of one handler invocation: either a normal response, or an
exception that escaped the handler (which Flask turns into its generic
500-status error page outside the handler). -/
inductive HResult where
  | ok : Response → HResult
  | uncaught : String → HResult
deriving DecidableEq, Repr

/-- Python string slicing s[:n]: the first n characters of s. -/
def strTake (s : String) (n : Nat) : String :=
  String.mk (s.data.take n)

/-- Fixed HTML returned by the home handler, copied verbatim from
app.py lines 13-27. -/
def homeBody : String :=
  "\n    <h1>Dependency Scanning Demo</h1>\n    <p>This app uses intentionally vulnerable dependencies.</p>\n    <ul>\n        <li>Flask 2.0.1 - Has known vulnerabilities</li>\n        <li>Jinja2 2.11.3 - Template injection vulnerability</li>\n        <li>Pillow 8.1.2 - Multiple CVEs</li>\n        <li>PyYAML 5.3.1 - Arbitrary code execution</li>\n        <li>cryptography 3.3.2 - Security vulnerabilities</li>\n        <li>Django 2.2.0 - Multiple critical CVEs</li>\n    </ul>\n    <p><a href=\"/template\">Test Template Rendering</a></p>\n    <p><a href=\"/yaml\">Test YAML Parsing</a></p>\n    <p><a href=\"/fetch\">Test HTTP Request</a></p>\n    "

/-- Route handler for GET / (app.py lines 11-27): returns the fixed HTML. -/
def home : HResult :=
  HResult.ok ⟨200, homeBody⟩

/-- Route handler for GET /template (app.py lines 29-34).  The Jinja2 call
render_template_string is the oracle render, whose error value is the
message of the exception it raises; the handler does not catch it, so a
failure escapes as HResult.uncaught. -/
def template_test (render : String → Except String String)
    (templateParam : Option String) : HResult :=
  match render (templateParam.getD "Hello, World!") with
  | Except.ok s => HResult.ok ⟨200, s⟩
  | Except.error e => HResult.uncaught e

/-- Loader classes exposed by the PyYAML module and selectable as the
Loader argument of yaml.load. -/
inductive Loader where
  | BaseLoader
  | SafeLoader
  | FullLoader
  | UnsafeLoader
deriving DecidableEq

/-- Loader passed to yaml.load by the YAML handler at app.py line 42. -/
def yamlLoader : Loader := Loader.FullLoader

/-- Modelled from the spec: loader semantics of the pinned PyYAML 5.3.1
dependency, whose code is not under src/.  Per the specification and the
source comments (app.py lines 37-39 and the home page text), in PyYAML
5.3.1 the FullLoader and UnsafeLoader classes can reconstruct arbitrary
object types from tagged input (the arbitrary-code-execution behavior of
that version), while BaseLoader and SafeLoader are restricted to plain
scalars, mappings and sequences. -/
def constructsArbitraryObjects : Loader → Bool
  | Loader.BaseLoader => false
  | Loader.SafeLoader => false
  | Loader.FullLoader => true
  | Loader.UnsafeLoader => true

/-- Route handler for GET /yaml (app.py lines 36-45).  The oracle load is
yaml.load: on success its payload is the textual str rendering of the
parsed value (as interpolated by the f-string at line 43), on failure the
message of the raised exception. -/
def yaml_test (load : Loader → String → Except String String)
    (dataParam : Option String) : HResult :=
  match load yamlLoader (dataParam.getD "message: Hello") with
  | Except.ok parsed => HResult.ok ⟨200, "Parsed YAML: " ++ parsed⟩
  | Except.error e => HResult.ok ⟨200, "Error: " ++ e⟩

/-- Response object returned by requests.get, restricted to the two fields
the fetch handler reads. -/
structure HttpResponse where
  status_code : Nat
  text : String
deriving DecidableEq

/-- Timeout argument passed to requests.get at app.py line 52. -/
def fetchTimeout : Nat := 5

/-- Route handler for GET /fetch (app.py lines 47-55).  The oracle get is
requests.get, taking the url and the timeout argument; its error value is
the message of the raised exception. -/
def fetch_url (get : String → Nat → Except String HttpResponse)
    (urlParam : Option String) : HResult :=
  match get (urlParam.getD "https://httpbin.org/get") fetchTimeout with
  | Except.ok r =>
      HResult.ok ⟨200,
        "Status: " ++ toString r.status_code ++ "<br>Content: " ++ strTake r.text 200⟩
  | Except.error e => HResult.ok ⟨200, "Error: " ++ e⟩

/-- Pointwise bitwise xor of two byte lists (CBC block chaining). -/
def xorBytes (a b : List Nat) : List Nat :=
  List.zipWith Nat.xor a b

/-- PKCS7 padding to 16-byte blocks, as applied by Fernet before CBC
encryption: append p copies of p, where p is the distance to the next
multiple of 16. -/
def pkcs7pad (m : List Nat) : List Nat :=
  m ++ List.replicate (16 - m.length % 16) (16 - m.length % 16)

/-- PKCS7 unpadding: read the last byte p, check that the last p bytes all
equal p, and remove them. -/
def pkcs7unpad (l : List Nat) : Option (List Nat) :=
  match l.getLast? with
  | none => none
  | some p =>
      if 1 ≤ p ∧ p ≤ 16 ∧ p ≤ l.length ∧ l.drop (l.length - p) = List.replicate p p then
        some (l.take (l.length - p))
      else none

/-- Split a byte list into consecutive 16-byte blocks (the last block may
be shorter if the length is not a multiple of 16). -/
def chunks16 : List Nat → List (List Nat)
  | [] => []
  | a :: rest => ((a :: rest).take 16) :: chunks16 ((a :: rest).drop 16)
termination_by l => l.length
decreasing_by simp [List.length_drop]; omega

/-- CBC encryption over a list of blocks with block cipher E: each
ciphertext block is E of the plaintext block xored with the previous
ciphertext block, starting from the IV. -/
def cbcEnc (E : List Nat → List Nat) (prev : List Nat) : List (List Nat) → List (List Nat)
  | [] => []
  | b :: bs => E (xorBytes b prev) :: cbcEnc E (E (xorBytes b prev)) bs

/-- CBC decryption with block cipher inverse D, inverse chaining of
cbcEnc. -/
def cbcDec (D : List Nat → List Nat) (prev : List Nat) : List (List Nat) → List (List Nat)
  | [] => []
  | c :: cs => xorBytes (D c) prev :: cbcDec D c cs

/-- UTF-8 encoding of one Unicode code point, the per-character step of
the Python str.encode method. -/
def utf8EncodeChar (c : Nat) : List Nat :=
  if c < 128 then [c]
  else if c < 2048 then [192 + c / 64, 128 + c % 64]
  else if c < 65536 then [224 + c / 4096, 128 + c / 64 % 64, 128 + c % 64]
  else [240 + c / 262144, 128 + c / 4096 % 64, 128 + c / 64 % 64, 128 + c % 64]

/-- UTF-8 byte encoding of a string, the message.encode() call at
app.py line 63. -/
def utf8Bytes (s : String) : List Nat :=
  s.data.foldr (fun c acc => utf8EncodeChar c.toNat ++ acc) []

/-- Character of the urlsafe base64 alphabet at index n (defined for
n < 64). -/
def sextetChar (n : Nat) : Char :=
  if n < 26 then Char.ofNat (65 + n)
  else if n < 52 then Char.ofNat (97 + (n - 26))
  else if n < 62 then Char.ofNat (48 + (n - 52))
  else if n = 62 then Char.ofNat 45
  else Char.ofNat 95

/-- Index of a character in the urlsafe base64 alphabet, none for
characters outside it. -/
def sextetIndex (c : Char) : Option Nat :=
  if 65 ≤ c.toNat ∧ c.toNat ≤ 90 then some (c.toNat - 65)
  else if 97 ≤ c.toNat ∧ c.toNat ≤ 122 then some (26 + (c.toNat - 97))
  else if 48 ≤ c.toNat ∧ c.toNat ≤ 57 then some (52 + (c.toNat - 48))
  else if c.toNat = 45 then some 62
  else if c.toNat = 95 then some 63
  else none

/-- Urlsafe base64 encoding of a byte list, three bytes to four
characters, with = padding for a final group of one or two bytes. -/
def b64encode : List Nat → List Char
  | [] => []
  | [b1] => [sextetChar (b1 / 4), sextetChar (b1 % 4 * 16), '=', '=']
  | [b1, b2] =>
      [sextetChar (b1 / 4), sextetChar (b1 % 4 * 16 + b2 / 16), sextetChar (b2 % 16 * 4), '=']
  | b1 :: b2 :: b3 :: rest =>
      sextetChar (b1 / 4) :: sextetChar (b1 % 4 * 16 + b2 / 16) ::
        sextetChar (b2 % 16 * 4 + b3 / 64) :: sextetChar (b3 % 64) :: b64encode rest

/-- Urlsafe base64 decoding, the left inverse of b64encode on byte
input. -/
def b64decode : List Char → Option (List Nat)
  | [] => some []
  | c1 :: c2 :: c3 :: c4 :: rest =>
      match sextetIndex c1, sextetIndex c2 with
      | some s1, some s2 =>
          if c3 = '=' then
            if c4 = '=' ∧ rest = [] then some [s1 * 4 + s2 / 16] else none
          else
            match sextetIndex c3 with
            | some s3 =>
                if c4 = '=' then
                  if rest = [] then some [s1 * 4 + s2 / 16, s2 % 16 * 16 + s3 / 4] else none
                else
                  match sextetIndex c4, b64decode rest with
                  | some s4, some bs =>
                      some ((s1 * 4 + s2 / 16) :: (s2 % 16 * 16 + s3 / 4) :: (s3 % 4 * 64 + s4) :: bs)
                  | _, _ => none
            | none => none
      | _, _ => none
  | _ => none

/-- Textual form of a byte list as urlsafe base64, the encrypted.decode()
step at app.py line 64 applied to the token bytes. -/
def b64String (l : List Nat) : String :=
  String.mk (b64encode l)

/-- Modelled from the spec: the Fernet token construction of the external
cryptography 3.3.2 dependency, whose code is not under src/.  Per the
published Fernet format, a token is the version byte 0x80, an 8-byte
timestamp, a 16-byte random IV, the AES-128-CBC encryption (under the last
16 bytes of the key) of the PKCS7-padded message, and a 32-byte HMAC
(under the first 16 bytes of the key) of all preceding bytes.  The keyed
block cipher E and the keyed HMAC mac are abstract parameters. -/
def fernetToken (E mac : List Nat → List Nat → List Nat)
    (key ts iv msg : List Nat) : List Nat :=
  (128 :: (ts ++ iv ++ (cbcEnc (E (key.drop 16)) iv (chunks16 (pkcs7pad msg))).flatten)) ++
    mac (key.take 16)
      (128 :: (ts ++ iv ++ (cbcEnc (E (key.drop 16)) iv (chunks16 (pkcs7pad msg))).flatten))

/-- Modelled from the spec: Fernet decryption of the cryptography 3.3.2
dependency, whose code is not under src/: decode the urlsafe base64 text,
check the 0x80 version byte, split off the 8-byte timestamp, the 16-byte
IV and the trailing 32-byte HMAC, verify the HMAC, CBC-decrypt the middle
with the block cipher inverse D and strip the PKCS7 padding. -/
def fernetDecrypt (D mac : List Nat → List Nat → List Nat)
    (key : List Nat) (tokenText : String) : Option (List Nat) :=
  match b64decode tokenText.data with
  | none => none
  | some tok =>
      match tok with
      | [] => none
      | v :: rest =>
          if v = 128 ∧ 56 ≤ rest.length then
            if (rest.drop 24).drop ((rest.drop 24).length - 32) =
                  mac (key.take 16)
                    (128 :: (rest.take 8 ++ ((rest.drop 8).take 16 ++
                      (rest.drop 24).take ((rest.drop 24).length - 32)))) ∧
                ((rest.drop 24).take ((rest.drop 24).length - 32)).length % 16 = 0 then
              pkcs7unpad
                ((cbcDec (D (key.drop 16)) ((rest.drop 8).take 16)
                  (chunks16 ((rest.drop 24).take ((rest.drop 24).length - 32)))).flatten)
            else none
          else none

/-- Route handler for GET /encrypt (app.py lines 57-64).  The per-call
Fernet.generate_key() result is the key parameter; the timestamp and the
random IV drawn inside cipher.encrypt are ts and iv; E and mac are the
keyed AES and HMAC primitives of the library. -/
def encrypt_test (E mac : List Nat → List Nat → List Nat)
    (key ts iv : List Nat) (messageParam : Option String) : HResult :=
  HResult.ok ⟨200,
    "Encrypted: " ++
      b64String (fernetToken E mac key ts iv (utf8Bytes (messageParam.getD "Secret data")))⟩

/-- Check whether pat occurs as a contiguous run inside the character list
hay. -/
def containsSubAux (pat : List Char) : List Char → Bool
  | [] => List.isPrefixOf pat []
  | c :: rest => List.isPrefixOf pat (c :: rest) || containsSubAux pat rest

/-- Check whether pat occurs as a contiguous substring of s. -/
def containsSub (s pat : String) : Bool :=
  containsSubAux pat.data s.data

/-- Decoding a base64 alphabet character recovers its index. -/
theorem sextetIndex_sextetChar : ∀ n, n < 64 → sextetIndex (sextetChar n) = some n := by
  decide

/-- No base64 alphabet character is the padding character. -/
theorem sextetChar_ne_pad : ∀ n, n < 64 → sextetChar n ≠ '=' := by
  decide

/-- Base64 decoding is a left inverse of base64 encoding on byte lists. -/
theorem b64decode_encode (l : List Nat) (h : ∀ x ∈ l, x < 256) :
    b64decode (b64encode l) = some l := by
  induction l using b64encode.induct with
  | case1 => rfl
  | case2 b1 =>
    have hb1 : b1 < 256 := h b1 (by simp)
    rw [b64encode]
    simp only [b64decode, sextetIndex_sextetChar _ (show b1 / 4 < 64 by omega),
      sextetIndex_sextetChar _ (show b1 % 4 * 16 < 64 by omega)]
    simp only [if_true, Option.some.injEq, List.cons.injEq, and_true]
    omega
  | case3 b1 b2 =>
    have hb1 : b1 < 256 := h b1 (by simp)
    have hb2 : b2 < 256 := h b2 (by simp)
    rw [b64encode]
    simp only [b64decode, sextetIndex_sextetChar _ (show b1 / 4 < 64 by omega),
      sextetIndex_sextetChar _ (show b1 % 4 * 16 + b2 / 16 < 64 by omega),
      sextetIndex_sextetChar _ (show b2 % 16 * 4 < 64 by omega),
      if_neg (sextetChar_ne_pad _ (show b2 % 16 * 4 < 64 by omega))]
    simp only [if_true, Option.some.injEq, List.cons.injEq, and_true]
    constructor <;> omega
  | case4 b1 b2 b3 rest ih =>
    have hb1 : b1 < 256 := h b1 (by simp)
    have hb2 : b2 < 256 := h b2 (by simp)
    have hb3 : b3 < 256 := h b3 (by simp)
    have hrest : ∀ x ∈ rest, x < 256 := fun x hx => h x (by simp [hx])
    rw [b64encode]
    simp only [b64decode, sextetIndex_sextetChar _ (show b1 / 4 < 64 by omega),
      sextetIndex_sextetChar _ (show b1 % 4 * 16 + b2 / 16 < 64 by omega),
      sextetIndex_sextetChar _ (show b2 % 16 * 4 + b3 / 64 < 64 by omega),
      sextetIndex_sextetChar _ (show b3 % 64 < 64 by omega),
      if_neg (sextetChar_ne_pad _ (show b2 % 16 * 4 + b3 / 64 < 64 by omega)),
      if_neg (sextetChar_ne_pad _ (show b3 % 64 < 64 by omega)), ih hrest]
    simp only [Option.some.injEq, List.cons.injEq, and_true]
    refine ⟨by omega, by omega, by omega⟩

/-- Base64 encoding is injective on byte lists. -/
theorem b64encode_inj {l1 l2 : List Nat} (h1 : ∀ x ∈ l1, x < 256) (h2 : ∀ x ∈ l2, x < 256)
    (he : b64encode l1 = b64encode l2) : l1 = l2 := by
  have d1 := b64decode_encode l1 h1
  rw [he, b64decode_encode l2 h2] at d1
  exact (Option.some.inj d1).symm

/-- Every code point of a Char is below the Unicode bound. -/
theorem char_toNat_lt (c : Char) : c.toNat < 1114112 := by
  rcases c with ⟨v, hv⟩
  rcases hv with h | ⟨_, h⟩ <;> simp [Char.toNat] <;> omega

/-- UTF-8 encoding of a valid code point produces bytes. -/
theorem utf8EncodeChar_lt (c : Nat) (hc : c < 1114112) : ∀ x ∈ utf8EncodeChar c, x < 256 := by
  intro x hx
  rw [utf8EncodeChar] at hx
  split_ifs at hx <;> simp only [List.mem_cons, List.mem_singleton, List.not_mem_nil,
    or_false] at hx <;> omega

/-- UTF-8 encoding of a string produces bytes. -/
theorem utf8Bytes_lt (s : String) : ∀ x ∈ utf8Bytes s, x < 256 := by
  rw [utf8Bytes]
  induction s.data with
  | nil => simp
  | cons c cs ih =>
    intro x hx
    simp only [List.foldr_cons, List.mem_append] at hx
    rcases hx with hx | hx
    · exact utf8EncodeChar_lt c.toNat (char_toNat_lt c) x hx
    · exact ih x hx

/-- Pointwise xor of byte lists produces bytes. -/
theorem xorBytes_lt (a b : List Nat) (ha : ∀ x ∈ a, x < 256) (hb : ∀ x ∈ b, x < 256) :
    ∀ x ∈ xorBytes a b, x < 256 := by
  induction a generalizing b with
  | nil => simp [xorBytes]
  | cons u us ih =>
    cases b with
    | nil => simp [xorBytes]
    | cons v vs =>
      intro x hx
      simp only [xorBytes, List.zipWith_cons_cons, List.mem_cons] at hx
      rcases hx with rfl | hx
      · have hu : u < 2 ^ 8 := by have := ha u (by simp); omega
        have hv : v < 2 ^ 8 := by have := hb v (by simp); omega
        have h2 := Nat.xor_lt_two_pow hu hv
        exact lt_of_lt_of_le h2 (by norm_num)
      · exact ih vs (fun x hx => ha x (by simp [hx])) (fun x hx => hb x (by simp [hx])) x hx

/-- Length of a pointwise xor of byte lists. -/
theorem xorBytes_length (a b : List Nat) : (xorBytes a b).length = min a.length b.length := by
  simp [xorBytes]

/-- Xoring twice with the same equal-length mask is the identity. -/
theorem xorBytes_cancel (a b : List Nat) (h : a.length = b.length) :
    xorBytes (xorBytes a b) b = a := by
  induction a generalizing b with
  | nil => simp [xorBytes]
  | cons u us ih =>
    cases b with
    | nil => simp at h
    | cons v vs =>
      simp only [xorBytes, List.zipWith_cons_cons, List.cons.injEq]
      refine ⟨?_, ?_⟩
      · show u ^^^ v ^^^ v = u
        rw [Nat.xor_assoc, Nat.xor_self, Nat.xor_zero]
      · exact ih vs (by simpa using h)

/-- Length of the PKCS7 padded message is a multiple of 16. -/
theorem pkcs7pad_length_mod (m : List Nat) : (pkcs7pad m).length % 16 = 0 := by
  simp only [pkcs7pad, List.length_append, List.length_replicate]
  omega

/-- PKCS7 padding of a byte list is a byte list. -/
theorem pkcs7pad_lt (m : List Nat) (h : ∀ x ∈ m, x < 256) : ∀ x ∈ pkcs7pad m, x < 256 := by
  intro x hx
  rcases List.mem_append.mp hx with hx | hx
  · exact h x hx
  · have := List.eq_of_mem_replicate hx
    omega

/-- Last element of a nonempty replicate. -/
theorem getLast?_replicate_pos {α : Type} (a : α) :
    ∀ n, 0 < n → (List.replicate n a).getLast? = some a := by
  intro n
  induction n with
  | zero => intro h; omega
  | succ k ih =>
    intro _
    cases k with
    | zero => rfl
    | succ j =>
      rw [List.replicate_succ, List.replicate_succ, List.getLast?_cons_cons,
        ← List.replicate_succ]
      exact ih (by omega)

/-- PKCS7 unpadding undoes PKCS7 padding. -/
theorem pkcs7unpad_pad (m : List Nat) : pkcs7unpad (pkcs7pad m) = some m := by
  have hp1 : 1 ≤ 16 - m.length % 16 := by omega
  have hp16 : 16 - m.length % 16 ≤ 16 := by omega
  have hlen : (pkcs7pad m).length = m.length + (16 - m.length % 16) := by
    simp [pkcs7pad]
  have hlast : (pkcs7pad m).getLast? = some (16 - m.length % 16) := by
    rw [pkcs7pad, List.getLast?_append_of_ne_nil _ (by
      simp only [ne_eq, List.replicate_eq_nil_iff]
      omega)]
    exact getLast?_replicate_pos _ _ (by omega)
  have hdrop : (pkcs7pad m).drop ((pkcs7pad m).length - (16 - m.length % 16)) =
      List.replicate (16 - m.length % 16) (16 - m.length % 16) := by
    rw [hlen, show m.length + (16 - m.length % 16) - (16 - m.length % 16) = m.length by omega,
      pkcs7pad]
    exact List.drop_left m _
  have htake : (pkcs7pad m).take ((pkcs7pad m).length - (16 - m.length % 16)) = m := by
    rw [hlen, show m.length + (16 - m.length % 16) - (16 - m.length % 16) = m.length by omega,
      pkcs7pad]
    exact List.take_left m _
  simp only [pkcs7unpad, hlast]
  rw [if_pos ⟨hp1, hp16, by omega, hdrop⟩, htake]

/-- Flattening the 16-byte chunks of a list gives back the list. -/
theorem chunks16_flatten (l : List Nat) : (chunks16 l).flatten = l := by
  induction l using chunks16.induct with
  | case1 => rw [chunks16]; rfl
  | case2 a rest ih => rw [chunks16, List.flatten_cons, ih, List.take_append_drop]

/-- Chunks of a list whose length is a multiple of 16 all have length 16. -/
theorem chunks16_length16 (l : List Nat) :
    l.length % 16 = 0 → ∀ b ∈ chunks16 l, b.length = 16 := by
  induction l using chunks16.induct with
  | case1 => intro _ b hb; rw [chunks16] at hb; simp at hb
  | case2 a rest ih =>
    intro h b hb
    rw [chunks16] at hb
    rcases List.mem_cons.mp hb with rfl | hb
    · simp only [List.length_take, List.length_cons]
      simp only [List.length_cons] at h
      omega
    · refine ih ?_ b hb
      simp only [List.length_drop, List.length_cons]
      simp only [List.length_cons] at h
      omega

/-- Every element of every 16-byte chunk is an element of the list. -/
theorem chunks16_lt (l : List Nat) :
    (∀ x ∈ l, x < 256) → ∀ b ∈ chunks16 l, ∀ x ∈ b, x < 256 := by
  induction l using chunks16.induct with
  | case1 => intro _ b hb; rw [chunks16] at hb; simp at hb
  | case2 a rest ih =>
    intro h b hb
    rw [chunks16] at hb
    rcases List.mem_cons.mp hb with rfl | hb
    · exact fun x hx => h x (List.take_subset 16 _ hx)
    · exact ih (fun x hx => h x (List.drop_subset 16 _ hx)) b hb

/-- Chunking the flattening of a list of 16-byte blocks gives the blocks. -/
theorem chunks16_of_blocks (bs : List (List Nat)) (h : ∀ b ∈ bs, b.length = 16) :
    chunks16 bs.flatten = bs := by
  induction bs with
  | nil => simp only [List.flatten_nil]; rw [chunks16]
  | cons b bs ih =>
    have hb : b.length = 16 := h b (by simp)
    obtain ⟨x, xs, rfl⟩ : ∃ x xs, b = x :: xs := by
      cases b with
      | nil => simp at hb
      | cons x xs => exact ⟨x, xs, rfl⟩
    simp only [List.flatten_cons, List.cons_append]
    rw [chunks16]
    rw [show (x :: (xs ++ bs.flatten) : List Nat) = (x :: xs) ++ bs.flatten from rfl,
      List.take_left' hb, List.drop_left' hb, ih (fun b hbm => h b (by simp [hbm]))]

/-- Flattening a list of 16-byte blocks gives a length that is a multiple
of 16. -/
theorem flatten_length_16 (bs : List (List Nat)) (h : ∀ b ∈ bs, b.length = 16) :
    bs.flatten.length % 16 = 0 := by
  induction bs with
  | nil => simp
  | cons b bs ih =>
    have hb : b.length = 16 := h b (by simp)
    have ihh := ih (fun b' hb' => h b' (by simp [hb']))
    simp only [List.flatten_cons, List.length_append, hb]
    omega

/-- CBC encryption of 16-byte blocks produces 16-byte blocks. -/
theorem cbcEnc_length16 (E : List Nat → List Nat) (hE : ∀ b, (E b).length = b.length) :
    ∀ (bs : List (List Nat)) (prev : List Nat), (∀ b ∈ bs, b.length = 16) →
      prev.length = 16 → ∀ c ∈ cbcEnc E prev bs, c.length = 16 := by
  intro bs
  induction bs with
  | nil => intro prev _ _ c hc; rw [cbcEnc] at hc; simp at hc
  | cons b bs ih =>
    intro prev hbs hprev c hc
    have hb : b.length = 16 := hbs b (by simp)
    have hcblock : (E (xorBytes b prev)).length = 16 := by
      rw [hE, xorBytes_length, hb, hprev]
      exact min_self 16
    rw [cbcEnc] at hc
    rcases List.mem_cons.mp hc with rfl | hc
    · exact hcblock
    · exact ih (E (xorBytes b prev)) (fun b' hb' => hbs b' (by simp [hb'])) hcblock c hc

/-- CBC encryption of byte blocks produces byte blocks. -/
theorem cbcEnc_lt (E : List Nat → List Nat)
    (hEr : ∀ b, (∀ x ∈ b, x < 256) → ∀ x ∈ E b, x < 256) :
    ∀ (bs : List (List Nat)) (prev : List Nat), (∀ b ∈ bs, ∀ x ∈ b, x < 256) →
      (∀ x ∈ prev, x < 256) → ∀ c ∈ cbcEnc E prev bs, ∀ x ∈ c, x < 256 := by
  intro bs
  induction bs with
  | nil => intro prev _ _ c hc; rw [cbcEnc] at hc; simp at hc
  | cons b bs ih =>
    intro prev hbs hprev c hc
    have hcblock : ∀ x ∈ E (xorBytes b prev), x < 256 :=
      hEr _ (xorBytes_lt b prev (hbs b (by simp)) hprev)
    rw [cbcEnc] at hc
    rcases List.mem_cons.mp hc with rfl | hc
    · exact hcblock
    · exact ih (E (xorBytes b prev)) (fun b' hb' => hbs b' (by simp [hb'])) hcblock c hc

/-- CBC decryption inverts CBC encryption when D inverts E and E preserves
lengths. -/
theorem cbcDec_cbcEnc (E D : List Nat → List Nat) (hDE : ∀ b, D (E b) = b)
    (hE : ∀ b, (E b).length = b.length) :
    ∀ (bs : List (List Nat)) (prev : List Nat), (∀ b ∈ bs, b.length = 16) →
      prev.length = 16 → cbcDec D prev (cbcEnc E prev bs) = bs := by
  intro bs
  induction bs with
  | nil => intro prev _ _; rfl
  | cons b bs ih =>
    intro prev hbs hprev
    have hb : b.length = 16 := hbs b (by simp)
    rw [cbcEnc, cbcDec, hDE, xorBytes_cancel b prev (by rw [hb, hprev]),
      ih (E (xorBytes b prev)) (fun b' hb' => hbs b' (by simp [hb']))
        (by rw [hE, xorBytes_length, hb, hprev]; exact min_self 16)]

/-- All bytes of a Fernet token are below 256 when the primitives and the
inputs produce bytes. -/
theorem fernetToken_lt (E mac : List Nat → List Nat → List Nat) (key ts iv msg : List Nat)
    (hEr : ∀ k b, (∀ x ∈ b, x < 256) → ∀ x ∈ E k b, x < 256)
    (hmacr : ∀ k b, ∀ x ∈ mac k b, x < 256)
    (htsr : ∀ x ∈ ts, x < 256) (hivr : ∀ x ∈ iv, x < 256)
    (hmsg : ∀ x ∈ msg, x < 256) :
    ∀ x ∈ fernetToken E mac key ts iv msg, x < 256 := by
  have hct : ∀ x ∈ (cbcEnc (E (key.drop 16)) iv (chunks16 (pkcs7pad msg))).flatten, x < 256 := by
    intro x hx
    obtain ⟨c, hc, hxc⟩ := List.mem_flatten.mp hx
    exact cbcEnc_lt (E (key.drop 16)) (hEr (key.drop 16)) (chunks16 (pkcs7pad msg)) iv
      (chunks16_lt (pkcs7pad msg) (pkcs7pad_lt msg hmsg)) hivr c hc x hxc
  intro x hx
  rw [fernetToken] at hx
  rcases List.mem_append.mp hx with hx | hx
  · rcases List.mem_cons.mp hx with rfl | hx
    · omega
    · rcases List.mem_append.mp hx with hx | hx
      · rcases List.mem_append.mp hx with hx | hx
        · exact htsr x hx
        · exact hivr x hx
      · exact hct x hx
  · exact hmacr _ _ x hx

/-- Taking and dropping recover the four segments of the token tail. -/
theorem token_split (ts iv ct tag : List Nat)
    (hts : ts.length = 8) (hiv : iv.length = 16) (htag : tag.length = 32) :
    ((ts ++ iv ++ ct) ++ tag).take 8 = ts ∧
    (((ts ++ iv ++ ct) ++ tag).drop 8).take 16 = iv ∧
    (((ts ++ iv ++ ct) ++ tag).drop 24).take ((((ts ++ iv ++ ct) ++ tag).drop 24).length - 32)
      = ct ∧
    (((ts ++ iv ++ ct) ++ tag).drop 24).drop ((((ts ++ iv ++ ct) ++ tag).drop 24).length - 32)
      = tag ∧
    56 ≤ ((ts ++ iv ++ ct) ++ tag).length := by
  have h1 : (ts ++ iv ++ ct) ++ tag = ts ++ (iv ++ (ct ++ tag)) := by
    simp [List.append_assoc]
  have h2 : (ts ++ iv ++ ct) ++ tag = (ts ++ iv) ++ (ct ++ tag) := by
    simp [List.append_assoc]
  have h24 : ((ts ++ iv ++ ct) ++ tag).drop 24 = ct ++ tag := by
    rw [h2, List.drop_left' (by rw [List.length_append, hts, hiv])]
  have hctlen : (ct ++ tag).length - 32 = ct.length := by
    rw [List.length_append, htag]
    omega
  refine ⟨?_, ?_, ?_, ?_, ?_⟩
  · rw [h1, List.take_left' hts]
  · rw [h1, List.drop_left' hts, List.take_left' hiv]
  · rw [h24, hctlen, List.take_left' rfl]
  · rw [h24, hctlen, List.drop_left' rfl]
  · simp only [List.length_append, hts, hiv, htag]
    omega

/-- Fernet decryption inverts Fernet encryption under the same key, when D
inverts the block cipher E, E preserves block lengths and byte ranges, the
HMAC produces 32 bytes, and the timestamp and IV have their format
lengths. -/
theorem fernet_enc_dec (E D mac : List Nat → List Nat → List Nat) (key ts iv msg : List Nat)
    (hDE : ∀ k b, D k (E k b) = b)
    (hElen : ∀ k b, (E k b).length = b.length)
    (hEr : ∀ k b, (∀ x ∈ b, x < 256) → ∀ x ∈ E k b, x < 256)
    (hmacLen : ∀ k b, (mac k b).length = 32)
    (hmacr : ∀ k b, ∀ x ∈ mac k b, x < 256)
    (hts : ts.length = 8) (htsr : ∀ x ∈ ts, x < 256)
    (hiv : iv.length = 16) (hivr : ∀ x ∈ iv, x < 256)
    (hmsg : ∀ x ∈ msg, x < 256) :
    fernetDecrypt D mac key (b64String (fernetToken E mac key ts iv msg)) = some msg := by
  have hrange : ∀ x ∈ fernetToken E mac key ts iv msg, x < 256 :=
    fernetToken_lt E mac key ts iv msg hEr hmacr htsr hivr hmsg
  have hdec : b64decode (b64String (fernetToken E mac key ts iv msg)).data =
      some (fernetToken E mac key ts iv msg) := b64decode_encode _ hrange
  have hctblocks : ∀ c ∈ cbcEnc (E (key.drop 16)) iv (chunks16 (pkcs7pad msg)), c.length = 16 :=
    cbcEnc_length16 (E (key.drop 16)) (hElen (key.drop 16)) _ iv
      (chunks16_length16 _ (pkcs7pad_length_mod msg)) hiv
  have hctlen :
      ((cbcEnc (E (key.drop 16)) iv (chunks16 (pkcs7pad msg))).flatten).length % 16 = 0 :=
    flatten_length_16 _ hctblocks
  obtain ⟨hsp1, hsp2, hsp3, hsp4, hsp5⟩ :=
    token_split ts iv (cbcEnc (E (key.drop 16)) iv (chunks16 (pkcs7pad msg))).flatten
      (mac (key.take 16)
        (128 :: (ts ++ iv ++ (cbcEnc (E (key.drop 16)) iv (chunks16 (pkcs7pad msg))).flatten)))
      hts hiv (hmacLen _ _)
  have hshape : fernetToken E mac key ts iv msg =
      128 :: ((ts ++ iv ++ (cbcEnc (E (key.drop 16)) iv (chunks16 (pkcs7pad msg))).flatten) ++
        mac (key.take 16)
          (128 :: (ts ++ iv ++ (cbcEnc (E (key.drop 16)) iv (chunks16 (pkcs7pad msg))).flatten))) := by
    rw [fernetToken]
    rfl
  rw [hshape] at hdec
  rw [hshape, fernetDecrypt.eq_def, hdec]
  simp only
  rw [if_pos ⟨trivial, hsp5⟩, hsp1, hsp2, hsp3, hsp4]
  rw [if_pos ⟨by rw [List.append_assoc], hctlen⟩]
  rw [chunks16_of_blocks _ hctblocks,
    cbcDec_cbcEnc (E (key.drop 16)) (D (key.drop 16)) (hDE _) (hElen _) _ iv
      (chunks16_length16 _ (pkcs7pad_length_mod msg)) hiv,
    chunks16_flatten, pkcs7unpad_pad]

/-- Fernet tokens built from different IVs differ, whatever the keys,
timestamps, messages and cipher outputs are. -/
theorem fernetToken_ne (E mac : List Nat → List Nat → List Nat)
    (key1 key2 ts1 ts2 iv1 iv2 m1 m2 : List Nat)
    (hts1 : ts1.length = 8) (hts2 : ts2.length = 8)
    (hiv1 : iv1.length = 16) (hiv2 : iv2.length = 16) (hne : iv1 ≠ iv2) :
    fernetToken E mac key1 ts1 iv1 m1 ≠ fernetToken E mac key2 ts2 iv2 m2 := by
  intro h
  rw [fernetToken, fernetToken] at h
  simp only [List.cons_append, List.append_assoc, List.cons.injEq, true_and] at h
  obtain ⟨-, h2⟩ := List.append_inj h (by rw [hts1, hts2])
  obtain ⟨hiv, -⟩ := List.append_inj h2 (by rw [hiv1, hiv2])
  exact hne hiv

/-- Appending a fixed prefix to the base64 forms of two different byte
lists gives two different strings. -/
theorem append_b64String_ne (s : String) (l1 l2 : List Nat)
    (h1 : ∀ x ∈ l1, x < 256) (h2 : ∀ x ∈ l2, x < 256) (hne : l1 ≠ l2) :
    s ++ b64String l1 ≠ s ++ b64String l2 := by
  intro h
  apply hne
  have hd : (s ++ b64String l1).data = (s ++ b64String l2).data := by rw [h]
  rw [String.data_append, String.data_append] at hd
  have henc : b64encode l1 = b64encode l2 := List.append_cancel_left hd
  exact b64encode_inj h1 h2 henc

/-- C1: the YAML handler passes yaml.FullLoader to yaml.load (app.py
line 42), a loader capable of reconstructing arbitrary object types from
tagged input, and in particular not one of the restricted loaders. -/
theorem c1_yaml_full_loader :
    constructsArbitraryObjects yamlLoader = true ∧
    yamlLoader ≠ Loader.SafeLoader ∧ yamlLoader ≠ Loader.BaseLoader := by
  decide

/-- C2: for every data parameter, the YAML handler catches any parse
failure and returns the Error message with a 200 status, and on success
returns the Parsed YAML rendering with a 200 status. -/
theorem c2_yaml_error_handling (load : Loader → String → Except String String)
    (p : Option String) :
    (∀ e, load yamlLoader (p.getD "message: Hello") = Except.error e →
      yaml_test load p = HResult.ok ⟨200, "Error: " ++ e⟩) ∧
    (∀ v, load yamlLoader (p.getD "message: Hello") = Except.ok v →
      yaml_test load p = HResult.ok ⟨200, "Parsed YAML: " ++ v⟩) := by
  constructor
  · intro e he
    simp only [yaml_test, he]
  · intro v hv
    simp only [yaml_test, hv]

/-- Witness for c2 at a failing and a succeeding concrete load. -/
theorem c2_witness :
    yaml_test (fun _ _ => Except.error "boom") none = HResult.ok ⟨200, "Error: boom"⟩ ∧
    yaml_test (fun _ s => Except.ok s) none =
      HResult.ok ⟨200, "Parsed YAML: message: Hello"⟩ :=
  ⟨(c2_yaml_error_handling (fun _ _ => Except.error "boom") none).1 "boom" rfl,
    (c2_yaml_error_handling (fun _ s => Except.ok s) none).2 "message: Hello" rfl⟩

/-- C3: for every url parameter, any failure of the outbound request is
caught and rendered as the Error message with a 200 status rather than an
HTTP error code. -/
theorem c3_fetch_error_handling (get : String → Nat → Except String HttpResponse)
    (p : Option String) (e : String)
    (h : get (p.getD "https://httpbin.org/get") fetchTimeout = Except.error e) :
    fetch_url get p = HResult.ok ⟨200, "Error: " ++ e⟩ := by
  simp only [fetch_url, h]

/-- Witness for c3 at a concrete failing request. -/
theorem c3_witness :
    fetch_url (fun _ _ => Except.error "timeout") none =
      HResult.ok ⟨200, "Error: timeout"⟩ :=
  c3_fetch_error_handling (fun _ _ => Except.error "timeout") none "timeout" rfl

/-- C4: the outbound GET is issued with the 5-second timeout (the handler
result depends on the oracle only at timeout 5) and on success the body
is exactly the status code, a br tag and the first 200 characters of the
fetched text, so at most 200 characters follow the Content marker. -/
theorem c4_fetch_success (get get2 : String → Nat → Except String HttpResponse)
    (p : Option String) (r : HttpResponse)
    (hagree : ∀ u, get u 5 = get2 u 5)
    (h : get (p.getD "https://httpbin.org/get") 5 = Except.ok r) :
    fetchTimeout = 5 ∧
    fetch_url get p = HResult.ok ⟨200,
      "Status: " ++ toString r.status_code ++ "<br>Content: " ++ strTake r.text 200⟩ ∧
    (strTake r.text 200).length ≤ 200 ∧
    fetch_url get p = fetch_url get2 p := by
  refine ⟨rfl, ?_, ?_, ?_⟩
  · simp only [fetch_url, fetchTimeout, h]
  · show (r.text.data.take 200).length ≤ 200
    rw [List.length_take]
    omega
  · simp only [fetch_url, fetchTimeout, hagree]

/-- Witness for c4 at a concrete succeeding request. -/
theorem c4_witness :
    fetchTimeout = 5 ∧
    fetch_url (fun _ _ => Except.ok ⟨200, "hello"⟩) none = HResult.ok ⟨200,
      "Status: " ++ toString (200 : Nat) ++ "<br>Content: " ++ strTake "hello" 200⟩ ∧
    (strTake "hello" 200).length ≤ 200 ∧
    fetch_url (fun _ _ => Except.ok ⟨200, "hello"⟩) none =
      fetch_url (fun _ _ => Except.ok ⟨200, "hello"⟩) none :=
  c4_fetch_success (fun _ _ => Except.ok ⟨200, "hello"⟩) (fun _ _ => Except.ok ⟨200, "hello"⟩)
    none ⟨200, "hello"⟩ (fun _ => rfl) rfl

/-- C5: the template handler applies no error handling: whenever rendering
the resolved template input fails, the failure escapes the handler as an
uncaught exception (surfaced by the framework as a generic server error)
instead of being converted to a response body. -/
theorem c5_template_uncaught (render : String → Except String String)
    (p : Option String) (e : String)
    (h : render (p.getD "Hello, World!") = Except.error e) :
    template_test render p = HResult.uncaught e := by
  simp only [template_test, h]

/-- Witness for c5 at a concrete malformed template input. -/
theorem c5_witness :
    template_test (fun _ => Except.error "unexpected end of template")
      (some "bad template") = HResult.uncaught "unexpected end of template" :=
  c5_template_uncaught (fun _ => Except.error "unexpected end of template")
    (some "bad template") "unexpected end of template" rfl

/-- C6: each of the five routes answers a request with no query parameters
with a 200-status response computed from the documented default value;
for the template route this requires the default template to render
successfully, which plain text does. -/
theorem c6_defaults (render : String → Except String String)
    (load : Loader → String → Except String String)
    (get : String → Nat → Except String HttpResponse)
    (E mac : List Nat → List Nat → List Nat) (key ts iv : List Nat)
    (hr : ∃ s, render "Hello, World!" = Except.ok s) :
    home = HResult.ok ⟨200, homeBody⟩ ∧
    (∃ b, template_test render none = HResult.ok ⟨200, b⟩) ∧
    template_test render none = template_test render (some "Hello, World!") ∧
    (∃ b, yaml_test load none = HResult.ok ⟨200, b⟩) ∧
    yaml_test load none = yaml_test load (some "message: Hello") ∧
    (∃ b, fetch_url get none = HResult.ok ⟨200, b⟩) ∧
    fetch_url get none = fetch_url get (some "https://httpbin.org/get") ∧
    (∃ b, encrypt_test E mac key ts iv none = HResult.ok ⟨200, b⟩) ∧
    encrypt_test E mac key ts iv none = encrypt_test E mac key ts iv (some "Secret data") := by
  obtain ⟨s, hs⟩ := hr
  refine ⟨rfl, ⟨s, by simp [template_test, hs]⟩, rfl, ?_, rfl, ?_, rfl, ⟨_, rfl⟩, rfl⟩
  · cases hload : load yamlLoader "message: Hello" with
    | ok v => exact ⟨"Parsed YAML: " ++ v, by simp [yaml_test, hload]⟩
    | error e => exact ⟨"Error: " ++ e, by simp [yaml_test, hload]⟩
  · cases hget : get "https://httpbin.org/get" fetchTimeout with
    | ok r =>
      exact ⟨"Status: " ++ toString r.status_code ++ "<br>Content: " ++ strTake r.text 200,
        by simp [fetch_url, hget]⟩
    | error e => exact ⟨"Error: " ++ e, by simp [fetch_url, hget]⟩

/-- Witness for c6 at concrete library behaviors. -/
theorem c6_witness :
    home = HResult.ok ⟨200, homeBody⟩ ∧
    (∃ b, template_test Except.ok none = HResult.ok ⟨200, b⟩) ∧
    template_test Except.ok none = template_test Except.ok (some "Hello, World!") ∧
    (∃ b, yaml_test (fun _ s => Except.ok s) none = HResult.ok ⟨200, b⟩) ∧
    yaml_test (fun _ s => Except.ok s) none =
      yaml_test (fun _ s => Except.ok s) (some "message: Hello") ∧
    (∃ b, fetch_url (fun _ _ => Except.ok ⟨200, "x"⟩) none = HResult.ok ⟨200, b⟩) ∧
    fetch_url (fun _ _ => Except.ok ⟨200, "x"⟩) none =
      fetch_url (fun _ _ => Except.ok ⟨200, "x"⟩) (some "https://httpbin.org/get") ∧
    (∃ b, encrypt_test (fun _ b => b) (fun _ _ => []) [] [] [] none = HResult.ok ⟨200, b⟩) ∧
    encrypt_test (fun _ b => b) (fun _ _ => []) [] [] [] none =
      encrypt_test (fun _ b => b) (fun _ _ => []) [] [] [] (some "Secret data") :=
  c6_defaults Except.ok (fun _ s => Except.ok s) (fun _ _ => Except.ok ⟨200, "x"⟩)
    (fun _ b => b) (fun _ _ => []) [] [] [] ⟨"Hello, World!", rfl⟩

/-- Every element of a replicate of a byte is a byte. -/
theorem replicate_lt (n a : Nat) (h : a < 256) : ∀ x ∈ List.replicate n a, x < 256 := by
  intro x hx
  rw [List.eq_of_mem_replicate hx]
  exact h

/-- C7: two calls of the encrypt handler with the same message parameter
and distinct per-call randomness (the fresh 16-byte IV drawn inside the
library encryption call; a fresh key is drawn per call as well) produce
different response bodies; the body is exactly the Encrypted prefix plus
the base64 token, and the key reaches the response only through that
token, since calls whose tokens coincide give identical responses, so the
generated key is never embedded in the response. -/
theorem c7_encrypt_fresh (E mac : List Nat → List Nat → List Nat)
    (key1 key2 ts1 ts2 iv1 iv2 : List Nat) (p : Option String)
    (hEr : ∀ k b, (∀ x ∈ b, x < 256) → ∀ x ∈ E k b, x < 256)
    (hmacr : ∀ k b, ∀ x ∈ mac k b, x < 256)
    (hts1 : ts1.length = 8) (htsr1 : ∀ x ∈ ts1, x < 256)
    (hts2 : ts2.length = 8) (htsr2 : ∀ x ∈ ts2, x < 256)
    (hiv1 : iv1.length = 16) (hivr1 : ∀ x ∈ iv1, x < 256)
    (hiv2 : iv2.length = 16) (hivr2 : ∀ x ∈ iv2, x < 256)
    (hfresh : iv1 ≠ iv2) :
    encrypt_test E mac key1 ts1 iv1 p ≠ encrypt_test E mac key2 ts2 iv2 p ∧
    (∀ key ts iv, encrypt_test E mac key ts iv p = HResult.ok ⟨200, "Encrypted: " ++
      b64String (fernetToken E mac key ts iv (utf8Bytes (p.getD "Secret data")))⟩) ∧
    (∀ key1' key2' ts iv,
      fernetToken E mac key1' ts iv (utf8Bytes (p.getD "Secret data")) =
        fernetToken E mac key2' ts iv (utf8Bytes (p.getD "Secret data")) →
      encrypt_test E mac key1' ts iv p = encrypt_test E mac key2' ts iv p) := by
  refine ⟨?_, fun key ts iv => rfl, fun key1' key2' ts iv h => ?_⟩
  · intro h
    simp only [encrypt_test, HResult.ok.injEq, Response.mk.injEq, true_and] at h
    exact append_b64String_ne "Encrypted: " _ _
      (fernetToken_lt E mac key1 ts1 iv1 _ hEr hmacr htsr1 hivr1
        (utf8Bytes_lt (p.getD "Secret data")))
      (fernetToken_lt E mac key2 ts2 iv2 _ hEr hmacr htsr2 hivr2
        (utf8Bytes_lt (p.getD "Secret data")))
      (fernetToken_ne E mac key1 key2 ts1 ts2 iv1 iv2 _ _ hts1 hts2 hiv1 hiv2 hfresh) h
  · simp only [encrypt_test, h]

/-- Witness for c7: two concrete calls with the same absent message and
different fresh randomness give different bodies, the body has the
Encrypted shape, and two different keys whose tokens coincide give the
same response. -/
theorem c7_witness :
    encrypt_test (fun _ b => b) (fun _ _ => List.replicate 32 0) (List.replicate 32 0)
        (List.replicate 8 0) (List.replicate 16 0) none ≠
      encrypt_test (fun _ b => b) (fun _ _ => List.replicate 32 0) (List.replicate 32 0)
        (List.replicate 8 0) (1 :: List.replicate 15 0) none ∧
    encrypt_test (fun _ b => b) (fun _ _ => List.replicate 32 0) (List.replicate 32 7)
        (List.replicate 8 0) (List.replicate 16 0) none = HResult.ok ⟨200, "Encrypted: " ++
      b64String (fernetToken (fun _ b => b) (fun _ _ => List.replicate 32 0)
        (List.replicate 32 7) (List.replicate 8 0) (List.replicate 16 0)
        (utf8Bytes ((none : Option String).getD "Secret data")))⟩ ∧
    encrypt_test (fun _ b => b) (fun _ _ => List.replicate 32 0) (List.replicate 32 0)
        (List.replicate 8 0) (List.replicate 16 0) none =
      encrypt_test (fun _ b => b) (fun _ _ => List.replicate 32 0) (List.replicate 32 7)
        (List.replicate 8 0) (List.replicate 16 0) none := by
  refine ⟨(c7_encrypt_fresh (fun _ b => b) (fun _ _ => List.replicate 32 0)
      (List.replicate 32 0) (List.replicate 32 0) (List.replicate 8 0) (List.replicate 8 0)
      (List.replicate 16 0) (1 :: List.replicate 15 0) none
      (fun _ _ h => h) (fun _ _ => replicate_lt 32 0 (by omega)) rfl (by decide) rfl (by decide)
      rfl (by decide) rfl (by decide) (by decide)).1,
    (c7_encrypt_fresh (fun _ b => b) (fun _ _ => List.replicate 32 0)
      (List.replicate 32 0) (List.replicate 32 0) (List.replicate 8 0) (List.replicate 8 0)
      (List.replicate 16 0) (1 :: List.replicate 15 0) none
      (fun _ _ h => h) (fun _ _ => replicate_lt 32 0 (by omega)) rfl (by decide) rfl (by decide)
      rfl (by decide) rfl (by decide) (by decide)).2.1 (List.replicate 32 7)
      (List.replicate 8 0) (List.replicate 16 0),
    (c7_encrypt_fresh (fun _ b => b) (fun _ _ => List.replicate 32 0)
      (List.replicate 32 0) (List.replicate 32 0) (List.replicate 8 0) (List.replicate 8 0)
      (List.replicate 16 0) (1 :: List.replicate 15 0) none
      (fun _ _ h => h) (fun _ _ => replicate_lt 32 0 (by omega)) rfl (by decide) rfl (by decide)
      rfl (by decide) rfl (by decide) (by decide)).2.2 (List.replicate 32 0)
      (List.replicate 32 7) (List.replicate 8 0) (List.replicate 16 0) rfl⟩

set_option maxRecDepth 40000 in
/-- C8 as stated is false: the home page body contains no link to the
/encrypt route. -/
theorem c8_counterexample : containsSub homeBody "/encrypt" = false := by
  decide

set_option maxRecDepth 40000 in
/-- C8 amended: the home handler returns, with a 200 status and no side
effects, fixed HTML that lists the six pinned library versions and links
to /template, /yaml and /fetch, but it contains no link to /encrypt. -/
theorem c8_amended :
    home = HResult.ok ⟨200, homeBody⟩ ∧
    containsSub homeBody "Flask 2.0.1" = true ∧
    containsSub homeBody "Jinja2 2.11.3" = true ∧
    containsSub homeBody "Pillow 8.1.2" = true ∧
    containsSub homeBody "PyYAML 5.3.1" = true ∧
    containsSub homeBody "cryptography 3.3.2" = true ∧
    containsSub homeBody "Django 2.2.0" = true ∧
    containsSub homeBody "/template" = true ∧
    containsSub homeBody "/yaml" = true ∧
    containsSub homeBody "/fetch" = true ∧
    containsSub homeBody "/encrypt" = false := by
  refine ⟨rfl, ?_, ?_, ?_, ?_, ?_, ?_, ?_, ?_, ?_, ?_⟩ <;> decide

set_option maxRecDepth 40000 in
/-- C9 as stated is false: the encrypt route, called twice with the same
(absent) message parameter but fresh per-call randomness, returns two
different response bodies. -/
theorem c9_counterexample :
    encrypt_test (fun _ b => b) (fun _ _ => List.replicate 32 0) (List.replicate 32 0)
        (List.replicate 8 0) (List.replicate 16 0) none ≠
      encrypt_test (fun _ b => b) (fun _ _ => List.replicate 32 0) (List.replicate 32 0)
        (List.replicate 8 0) (2 :: List.replicate 15 0) none := by
  decide

/-- C9 amended: every handler is stateless and a pure function of its
resolved request parameter together with its per-call external inputs
(library results and randomness): fixing those, responses are identical;
the four non-encrypt handlers are deterministic in the request alone for
a fixed library behavior, while the encrypt handler also depends on the
per-call key, timestamp and IV, so identical requests can produce
different bodies there. -/
theorem c9_stateless (render : String → Except String String)
    (load : Loader → String → Except String String)
    (get : String → Nat → Except String HttpResponse)
    (E mac : List Nat → List Nat → List Nat) (key ts iv : List Nat)
    (p q : Option String) :
    home = HResult.ok ⟨200, homeBody⟩ ∧
    (p.getD "Hello, World!" = q.getD "Hello, World!" →
      template_test render p = template_test render q) ∧
    (p.getD "message: Hello" = q.getD "message: Hello" →
      yaml_test load p = yaml_test load q) ∧
    (p.getD "https://httpbin.org/get" = q.getD "https://httpbin.org/get" →
      fetch_url get p = fetch_url get q) ∧
    (p.getD "Secret data" = q.getD "Secret data" →
      encrypt_test E mac key ts iv p = encrypt_test E mac key ts iv q) := by
  refine ⟨rfl, fun h => ?_, fun h => ?_, fun h => ?_, fun h => ?_⟩
  · simp only [template_test, h]
  · simp only [yaml_test, h]
  · simp only [fetch_url, h]
  · simp only [encrypt_test, h]

/-- Witness for the amended c9 at concrete inputs. -/
theorem c9_witness :
    home = HResult.ok ⟨200, homeBody⟩ ∧
    ((some "x").getD "Hello, World!" = (some "x").getD "Hello, World!" →
      template_test Except.ok (some "x") = template_test Except.ok (some "x")) ∧
    ((some "x").getD "message: Hello" = (some "x").getD "message: Hello" →
      yaml_test (fun _ s => Except.ok s) (some "x") =
        yaml_test (fun _ s => Except.ok s) (some "x")) ∧
    ((some "x").getD "https://httpbin.org/get" = (some "x").getD "https://httpbin.org/get" →
      fetch_url (fun _ _ => Except.error "e") (some "x") =
        fetch_url (fun _ _ => Except.error "e") (some "x")) ∧
    ((some "x").getD "Secret data" = (some "x").getD "Secret data" →
      encrypt_test (fun _ b => b) (fun _ _ => []) [] [] [] (some "x") =
        encrypt_test (fun _ b => b) (fun _ _ => []) [] [] [] (some "x")) :=
  c9_stateless Except.ok (fun _ s => Except.ok s) (fun _ _ => Except.error "e")
    (fun _ b => b) (fun _ _ => []) [] [] [] (some "x") (some "x")

/-- C10: the ciphertext text produced by the encrypt handler, decrypted
with the same per-call key, yields exactly the UTF-8 bytes of the
original message: the handler body is the Encrypted prefix plus the token
text, and Fernet decryption of that token text under the same key returns
the UTF-8 encoding of the message. -/
theorem c10_roundtrip (E D mac : List Nat → List Nat → List Nat)
    (key ts iv : List Nat) (message : String)
    (hDE : ∀ k b, D k (E k b) = b)
    (hElen : ∀ k b, (E k b).length = b.length)
    (hEr : ∀ k b, (∀ x ∈ b, x < 256) → ∀ x ∈ E k b, x < 256)
    (hmacLen : ∀ k b, (mac k b).length = 32)
    (hmacr : ∀ k b, ∀ x ∈ mac k b, x < 256)
    (hts : ts.length = 8) (htsr : ∀ x ∈ ts, x < 256)
    (hiv : iv.length = 16) (hivr : ∀ x ∈ iv, x < 256) :
    encrypt_test E mac key ts iv (some message) = HResult.ok ⟨200, "Encrypted: " ++
      b64String (fernetToken E mac key ts iv (utf8Bytes message))⟩ ∧
    fernetDecrypt D mac key (b64String (fernetToken E mac key ts iv (utf8Bytes message))) =
      some (utf8Bytes message) :=
  ⟨rfl, fernet_enc_dec E D mac key ts iv (utf8Bytes message) hDE hElen hEr hmacLen hmacr
    hts htsr hiv hivr (utf8Bytes_lt message)⟩

/-- Witness for c10 at a concrete key, timestamp, IV and message. -/
theorem c10_witness :
    encrypt_test (fun _ b => b) (fun _ _ => List.replicate 32 0) (List.replicate 32 0)
        (List.replicate 8 0) (List.replicate 16 0) (some "Secret data") =
      HResult.ok ⟨200, "Encrypted: " ++
        b64String (fernetToken (fun _ b => b) (fun _ _ => List.replicate 32 0)
          (List.replicate 32 0) (List.replicate 8 0) (List.replicate 16 0)
          (utf8Bytes "Secret data"))⟩ ∧
    fernetDecrypt (fun _ b => b) (fun _ _ => List.replicate 32 0) (List.replicate 32 0)
        (b64String (fernetToken (fun _ b => b) (fun _ _ => List.replicate 32 0)
          (List.replicate 32 0) (List.replicate 8 0) (List.replicate 16 0)
          (utf8Bytes "Secret data"))) = some (utf8Bytes "Secret data") :=
  c10_roundtrip (fun _ b => b) (fun _ b => b) (fun _ _ => List.replicate 32 0)
    (List.replicate 32 0) (List.replicate 8 0) (List.replicate 16 0) "Secret data"
    (fun _ _ => rfl) (fun _ _ => rfl) (fun _ _ h => h) (fun _ _ => rfl)
    (fun _ _ => replicate_lt 32 0 (by omega)) rfl (by decide) rfl (by decide)

end App
